import Mathlib

/-!
Verification of the data-shaping pipeline of trial_plot_mention_counts.py.

The script loads a wide daily brand-count table (one column per brand, one row
per date), filters it to an inclusive date window, fills missing brand counts
with zero, ranks brands by window totals (default selection = top 5), melts the
selected columns to a tidy long table, aggregates an optional weekly channel
summary (Mode B: overlap filter, numeric coercion, groupby with max/sum,
top-3-per-brand rankings by reach and engagement), and optionally shows the
Top-10 brands by whole-dataset totals re-sliced to the window.

Modelling conventions:
- dates are integers (day numbers); pandas Timestamp comparison is total order
  on Int;
- a cell is Option Int, none standing for NaN / a missing value;
- a wide table is a column-name list plus rows, each row carrying its date and
  an association list of cells; reading a column that a row does not carry
  yields none, as pandas materialises NaN there;
- the multi-column DataFrame sort_values of lines 113 and 125 is modelled as
  a stable sort (pandas uses a stable lexsort for multi-column sorts); the
  single-key Series sort_values of lines 45, 156 and 176 promises no tie
  order under its default sort kind, so tie-order-sensitive statements are
  made against the relational post-condition IsSortValuesDesc below, of
  which the executable stable sort is one permitted refinement; groupby
  group keys are emitted in ascending lexicographic key order as with the
  default sort=True.
-/

/-- A stable insertion into a list sorted by the boolean comparator le:
x is placed before the first element y with le x y. -/
def insertLe (le : α → α → Bool) (x : α) : List α → List α
  | [] => [x]
  | y :: ys => if le x y then x :: y :: ys else y :: insertLe le x ys

/-- Insertion sort by the boolean comparator le, the executable model of
the script's sort_values calls. It is stable, which matches the
multi-column sorts of lines 113 and 125 exactly; the single-key sorts of
lines 45, 156 and 176 guarantee no tie order, so statements that depend on
tie order are made against IsSortValuesDesc instead, which any permitted
result of those sorts satisfies. -/
def sortValuesBy (le : α → α → Bool) : List α → List α
  | [] => []
  | x :: xs => insertLe le x (sortValuesBy le xs)

/-- Kernel-reducible lexicographic strict order on character lists; this is
the order underlying the strict order on String in core Lean. -/
def charListLt : List Char → List Char → Bool
  | _, [] => false
  | [], _ :: _ => true
  | a :: as, b :: bs => decide (a < b) || (a == b && charListLt as bs)

/-- Strict lexicographic order on strings (same relation as the String
order, restated so that it evaluates by kernel reduction). -/
def strLt (a b : String) : Bool := charListLt a.data b.data

/-- Reflexive lexicographic order on strings. -/
def strLe (a b : String) : Bool := !(strLt b a)

/-- Comparator for a sort by a string key ascending, ties decided by a
second comparator; this is the shape of every multi-column sort_values of
the script. -/
def lexStrBy (key : β → String) (le2 : β → β → Bool) (a b : β) : Bool :=
  strLt (key a) (key b) || (decide (key a = key b) && le2 a b)

/-- A cell of the wide table: none models NaN / missing. -/
abbrev Cell := Option Int

/-- One row of the wide daily table: its date plus named cells. -/
structure Row where
  date : Int
  cells : List (String × Cell)
deriving DecidableEq

/-- Read a named cell; a column absent from the row reads as none (NaN),
exactly as pandas materialises missing columns. -/
def Row.get (r : Row) (c : String) : Cell := (r.cells.lookup c).join

/-- A wide table: the non-date column names, and the rows. The date column is
held in the date field of each row. -/
structure Table where
  cols : List String
  rows : List Row
deriving DecidableEq

/-- The metadata column names excluded from brand enumeration
(drop_cols at lines 34 and 38; the date column is structural here). -/
def metaCols : List String := ["total_mentions", "num_brands_mentioned"]

/-- drop_cols: the metadata columns actually present in the table. -/
def dropColsOf (t : Table) : List String := metaCols.filter (fun c => c ∈ t.cols)

/-- brand_cols: every column that is not a metadata column (lines 34-35,
38-39). -/
def brandColsOf (t : Table) : List String :=
  t.cols.filter (fun c => !(c ∈ dropColsOf t : Bool))

/-- Window filter, line 32: keep the rows with start <= date <= end. -/
def filterWindow (s e : Int) (t : Table) : Table :=
  ⟨t.cols, t.rows.filter (fun r => decide (s ≤ r.date) && decide (r.date ≤ e))⟩

/-- Materialise every column of a row, replacing missing values of the listed
brand columns with 0 and leaving the other columns as read. -/
def fillRow (cols bcols : List String) (r : Row) : Row :=
  ⟨r.date, cols.map (fun c =>
      (c, if c ∈ bcols then some ((r.get c).getD 0) else r.get c))⟩

/-- week[brand_cols] = week[brand_cols].fillna(0), line 40: zero-fill the
brand columns of every row. -/
def fillBrands (t : Table) : Table :=
  ⟨t.cols, t.rows.map (fillRow t.cols (brandColsOf t))⟩

/-- The week table of lines 32-40: window filter followed by the zero-fill of
the brand columns. -/
def mkWeek (s e : Int) (t : Table) : Table := fillBrands (filterWindow s e t)

/-- Sum of a column over all rows of a table; pandas .sum() skips NaN, which
is the same as counting missing cells as 0. -/
def colSum (t : Table) (c : String) : Int :=
  (t.rows.map (fun r => (r.get c).getD 0)).sum

/-- Descending comparator on (label, total) pairs, by total only; equal
totals keep their original order, modelling Series.sort_values
(ascending=False). -/
def bySndDesc (a b : String × Int) : Bool := decide (b.2 ≤ a.2)

/-- Column totals over the listed columns, sorted descending
(sum().sort_values(ascending=False) at lines 45, 156 and 176). -/
def rankPairs (t : Table) (cs : List String) : List (String × Int) :=
  sortValuesBy bySndDesc (cs.map (fun c => (c, colSum t c)))

/-- totals.head(5).index, lines 45-46: the default brand selection. -/
def defaultBrands (t : Table) : List String :=
  ((rankPairs t (brandColsOf t)).take 5).map Prod.fst

/-- totals_all.head(10).index, lines 156-157: the Top-10 brands by totals
over the entire unfiltered dataset. -/
def top10Brands (t : Table) : List String :=
  ((rankPairs t (brandColsOf t)).take 10).map Prod.fst

/-- One row of the tidy long table: date, brand, mentions. -/
abbrev LongRow := Int × String × Cell

/-- pandas melt with id_vars date, lines 55 and 163: one output row per
(value column, input row), stacked column by column. -/
def melt (t : Table) (cs : List String) : List LongRow :=
  cs.flatMap (fun b => t.rows.map (fun r => (r.date, b, r.get b)))

/-- Comparator for long_df.sort_values([brand, date]), line 69: brand
ascending, then date ascending. -/
def byBrandDate : LongRow → LongRow → Bool :=
  lexStrBy (fun x => x.2.1) (fun a b => decide (a.1 ≤ b.1))

/-- The data table shown under the chart, line 69: the long table sorted by
brand then date. -/
def tidySorted (l : List LongRow) : List LongRow := sortValuesBy byBrandDate l

/-- One row of the weekly channel summary file (lines 74-99). Raw numeric
cells are Option Int: none models a missing or non-numeric value, which
to_numeric(errors=coerce).fillna(0) turns into 0. The weekEnd field carries
the week_end column and is only read when that column is present. -/
structure ChwRow where
  weekStart : Int
  weekEnd : Int
  keyword : String
  channel : String
  subscribers : Cell
  views : Cell
  likeCount : Cell
  commentCount : Cell
deriving DecidableEq

/-- Lines 83-87: the effective week end of a row; when the week_end column is
absent it is synthesized as week_start + 6 days. -/
def effWeekEnd (hasWeekEnd : Bool) (r : ChwRow) : Int :=
  if hasWeekEnd then r.weekEnd else r.weekStart + 6

/-- Lines 90-91: a row survives when its week overlaps the display window
(week_start <= end and week_end >= start) and its keyword is selected. -/
def chwMask (hasWeekEnd : Bool) (s e : Int) (selected : List String) (r : ChwRow) : Bool :=
  (decide (r.weekStart ≤ e) && decide (effWeekEnd hasWeekEnd r ≥ s))
    && decide (r.keyword ∈ selected)

/-- The surviving secondary rows (chw.loc[mask] at line 93). -/
def chwFiltered (hasWeekEnd : Bool) (s e : Int) (selected : List String)
    (rows : List ChwRow) : List ChwRow :=
  rows.filter (chwMask hasWeekEnd s e selected)

/-- A surviving row after column selection and numeric coercion
(lines 93-99). -/
structure SubRow where
  keyword : String
  channel : String
  subscribers : Int
  views : Int
  likeCount : Int
  commentCount : Int
deriving DecidableEq

/-- Lines 98-99: to_numeric(errors=coerce).fillna(0).astype(int) on the four
count columns. -/
def coerceRow (r : ChwRow) : SubRow :=
  ⟨r.keyword, r.channel, r.subscribers.getD 0, r.views.getD 0,
    r.likeCount.getD 0, r.commentCount.getD 0⟩

/-- The sub table of lines 93-99: filter, project, coerce. -/
def chwSub (hasWeekEnd : Bool) (s e : Int) (selected : List String)
    (rows : List ChwRow) : List SubRow :=
  (chwFiltered hasWeekEnd s e selected rows).map coerceRow

/-- Maximum of a list of integers, 0 on the empty list; the groups it is
applied to below are never empty. -/
def listMax : List Int → Int
  | [] => 0
  | x :: xs => xs.foldl max x

/-- One row of the aggregated table of lines 103-110, engagement column
included. -/
structure AggRow where
  keyword : String
  channel : String
  subscribers : Int
  views : Int
  likeCount : Int
  commentCount : Int
  engagement : Int
deriving DecidableEq

/-- The rows of sub belonging to one (keyword, channel) group. -/
def groupOf (sub : List SubRow) (k c : String) : List SubRow :=
  sub.filter (fun r => r.keyword == k && r.channel == c)

/-- Lines 103-110: the aggregate of one (keyword, channel) group —
subscribers by max, the other three counts by sum, engagement = views +
likes + comments. -/
def aggFor (sub : List SubRow) (k c : String) : AggRow :=
  let g := groupOf sub k c
  let v := (g.map (fun r => r.views)).sum
  let l := (g.map (fun r => r.likeCount)).sum
  let m := (g.map (fun r => r.commentCount)).sum
  ⟨k, c, listMax (g.map (fun r => r.subscribers)), v, l, m, v + l + m⟩

/-- Ascending lexicographic order on (keyword, channel) group keys. -/
def pairLe : String × String → String × String → Bool :=
  lexStrBy Prod.fst (fun a b => strLe a.2 b.2)

/-- The distinct group keys of sub in ascending lexicographic order, as
pandas groupby with its default sort=True emits them. -/
def groupKeys (sub : List SubRow) : List (String × String) :=
  sortValuesBy pairLe ((sub.map (fun r => (r.keyword, r.channel))).dedup)

/-- The aggregated table agg of lines 103-110 (with its engagement column of
line 110): one row per distinct (keyword, channel) pair of sub. -/
def chwAgg (sub : List SubRow) : List AggRow :=
  (groupKeys sub).map (fun kc => aggFor sub kc.1 kc.2)

/-- Comparator for agg.sort_values([keyword, metric], ascending=[True,
False]) at lines 113 and 125. -/
def byKeywordMetricDesc (metric : AggRow → Int) : AggRow → AggRow → Bool :=
  lexStrBy (fun r => r.keyword) (fun a b => decide (metric b ≤ metric a))

/-- groupby(keyword).head(n): keep each row while fewer than n earlier rows
share its keyword; seen counts the keywords already passed. -/
def headPerKeyword (n : Nat) (seen : List (String × Nat)) : List AggRow → List AggRow
  | [] => []
  | r :: rs =>
    if (seen.lookup r.keyword).getD 0 < n then
      r :: headPerKeyword n ((r.keyword, (seen.lookup r.keyword).getD 0 + 1) :: seen) rs
    else headPerKeyword n seen rs

/-- Lines 113-114 and 125-126: sort by keyword ascending then the metric
descending, and keep the first 3 rows of each keyword group. -/
def topPerKeyword (metric : AggRow → Int) (agg : List AggRow) : List AggRow :=
  headPerKeyword 3 [] (sortValuesBy (byKeywordMetricDesc metric) agg)

/-- top_reach, lines 113-114: top 3 channels per brand by subscribers. -/
def topReach (agg : List AggRow) : List AggRow :=
  topPerKeyword (fun r => r.subscribers) agg

/-- top_eng, lines 125-126: top 3 channels per brand by engagement. -/
def topEng (agg : List AggRow) : List AggRow :=
  topPerKeyword (fun r => r.engagement) agg

/-- The state of the optional weekly channel summary source: the file is
absent, it exists but reading or processing it raises, or it parses into a
column list and rows. -/
inductive SecInput
  | absent
  | unreadable
  | ok (cols : List String) (rows : List ChwRow)
deriving DecidableEq

/-- need_cols at line 75. -/
def needCols : List String :=
  ["week_start", "keyword", "channel", "subscribers", "views", "likeCount", "commentCount"]

/-- What the secondary section of the page shows: nothing (no brand
selected), the tip that the file is missing (line 150), the warning of the
exception handler (line 147), the missing-columns info (line 145), the
empty-after-filtering info (lines 136-143), or the two top-3 tables. -/
inductive SecOutcome
  | silent
  | tipNoFile
  | warnLoadFailed
  | infoMissingCols
  | infoEmpty
  | tables (reach eng : List AggRow)
deriving DecidableEq

/-- Lines 72-150: the secondary (weekly channel summary) section. -/
def renderSecondary (s e : Int) (selected : List String) : SecInput → SecOutcome
  | .absent => if selected.isEmpty then .silent else .tipNoFile
  | .unreadable => if selected.isEmpty then .silent else .warnLoadFailed
  | .ok cols rows =>
      if selected.isEmpty then .silent
      else if needCols.all (fun c => decide (c ∈ cols)) then
        let sub := chwSub (decide ("week_end" ∈ cols)) s e selected rows
        if sub.isEmpty then .infoEmpty
        else
          let agg := chwAgg sub
          .tables (topReach agg) (topEng agg)
      else .infoMissingCols

/-- The Top-10 section, lines 152-179: hidden when the toggle is off, an
info message when there are no brands, else the melted chart data and the
descending window-total table. -/
inductive Top10View
  | hidden
  | noBrands
  | shown (chart : List LongRow) (totals : List (String × Int))
deriving DecidableEq

/-- Everything the page derives and shows in one render cycle. -/
structure RenderOut where
  week : Table
  chart : Option (List LongRow)
  tidy : Option (List LongRow)
  secondary : SecOutcome
  top10 : Top10View
deriving DecidableEq

/-- The whole render cycle of lines 30-179 as a function of the primary
table, the window, the selection, the secondary source state and the Top-10
toggle. -/
def render (df : Table) (s e : Int) (selected : List String)
    (sec : SecInput) (showTop10 : Bool) : RenderOut :=
  let week := mkWeek s e df
  let longDf := melt week selected
  { week := week
    chart := if selected.isEmpty then none else some longDf
    tidy := if selected.isEmpty then none else some (tidySorted longDf)
    secondary := renderSecondary s e selected sec
    top10 :=
      if showTop10 then
        let t10 := top10Brands df
        if t10.isEmpty then .noBrands
        else .shown (melt week t10) (rankPairs week t10)
      else .hidden }

/-- The two dataframe variables of the script: df (the full table) and week
(absent until the filter of line 32 runs). -/
structure PandasState where
  df : Table
  week : Option Table
deriving DecidableEq

/-- Line 30-31: df is loaded; week does not exist yet. -/
def loadState (t : Table) : PandasState := ⟨t, none⟩

/-- Line 32: week = df[(date >= start) and (date <= end)].copy() — a copy is
assigned to week and df is untouched. -/
def stepFilter (s e : Int) (st : PandasState) : PandasState :=
  { st with week := some (filterWindow s e st.df) }

/-- Line 40: week[brand_cols] = week[brand_cols].fillna(0) — the assignment
touches only week. -/
def stepFill (st : PandasState) : PandasState :=
  { st with week := st.week.map fillBrands }

/-- The rows of the table outside the window. -/
def filterOutsideWindow (s e : Int) (t : Table) : Table :=
  ⟨t.cols, t.rows.filter (fun r => !(decide (s ≤ r.date) && decide (r.date ≤ e)))⟩

theorem insertLe_perm (le : α → α → Bool) (x : α) :
    ∀ l : List α, List.Perm (insertLe le x l) (x :: l)
  | [] => List.Perm.refl _
  | y :: ys => by
    by_cases h : le x y = true
    · simp [insertLe, h]
    · simp only [insertLe, h]
      rw [if_neg (by simp [h])]
      exact ((insertLe_perm le x ys).cons y).trans (List.Perm.swap x y ys)

theorem sortValuesBy_perm (le : α → α → Bool) :
    ∀ l : List α, List.Perm (sortValuesBy le l) l
  | [] => List.Perm.refl _
  | x :: xs =>
    (insertLe_perm le x (sortValuesBy le xs)).trans ((sortValuesBy_perm le xs).cons x)

theorem mem_insertLe (le : α → α → Bool) (x a : α) (l : List α) :
    a ∈ insertLe le x l ↔ a = x ∨ a ∈ l := by
  rw [(insertLe_perm le x l).mem_iff, List.mem_cons]

theorem mem_sortValuesBy (le : α → α → Bool) (a : α) (l : List α) :
    a ∈ sortValuesBy le l ↔ a ∈ l :=
  (sortValuesBy_perm le l).mem_iff

theorem pairwise_insertLe (le : α → α → Bool)
    (htrans : ∀ a b c, le a b = true → le b c = true → le a c = true)
    (htotal : ∀ a b, le a b = true ∨ le b a = true) (x : α) :
    ∀ {l : List α}, l.Pairwise (fun a b => le a b = true) →
      (insertLe le x l).Pairwise (fun a b => le a b = true) := by
  intro l
  induction l with
  | nil => intro _; simp [insertLe]
  | cons y ys ih =>
    intro hl
    by_cases h : le x y = true
    · simp only [insertLe, if_pos h]
      refine List.Pairwise.cons ?_ hl
      intro z hz
      rcases List.mem_cons.mp hz with rfl | hz
      · exact h
      · exact htrans x y z h (List.rel_of_pairwise_cons hl hz)
    · simp only [insertLe, if_neg h]
      refine List.Pairwise.cons ?_ (ih hl.tail)
      intro z hz
      rcases (mem_insertLe le x z ys).mp hz with hzx | hz
      · rcases htotal x y with hxy | hyx
        · exact absurd hxy h
        · exact hzx ▸ hyx
      · exact List.rel_of_pairwise_cons hl hz

theorem pairwise_sortValuesBy (le : α → α → Bool)
    (htrans : ∀ a b c, le a b = true → le b c = true → le a c = true)
    (htotal : ∀ a b, le a b = true ∨ le b a = true) :
    ∀ l : List α, (sortValuesBy le l).Pairwise (fun a b => le a b = true)
  | [] => List.Pairwise.nil
  | x :: xs =>
    pairwise_insertLe le htrans htotal x
      (pairwise_sortValuesBy le htrans htotal xs)

theorem charListLt_irrefl : ∀ a : List Char, charListLt a a = false
  | [] => rfl
  | c :: cs => by simp [charListLt, charListLt_irrefl cs, lt_irrefl]

theorem charListLt_trans :
    ∀ (a b c : List Char), charListLt a b = true → charListLt b c = true →
      charListLt a c = true
  | _, [], _, h1, _ => by simp [charListLt] at h1
  | _, _ :: _, [], _, h2 => by simp [charListLt] at h2
  | [], _ :: _, _ :: _, _, _ => by simp [charListLt]
  | a :: as, b :: bs, c :: cs, h1, h2 => by
    simp only [charListLt, Bool.or_eq_true, Bool.and_eq_true, decide_eq_true_eq,
      beq_iff_eq] at h1 h2 ⊢
    rcases h1 with h1 | ⟨rfl, h1⟩
    · rcases h2 with h2 | ⟨rfl, h2⟩
      · exact Or.inl (lt_trans h1 h2)
      · exact Or.inl h1
    · rcases h2 with h2 | ⟨rfl, h2⟩
      · exact Or.inl h2
      · exact Or.inr ⟨rfl, charListLt_trans as bs cs h1 h2⟩

theorem charListLt_antisymm :
    ∀ (a b : List Char), charListLt a b = false → charListLt b a = false → a = b
  | [], [], _, _ => rfl
  | [], _ :: _, h1, _ => by simp [charListLt] at h1
  | _ :: _, [], _, h2 => by simp [charListLt] at h2
  | a :: as, b :: bs, h1, h2 => by
    have hab : ¬ a < b := by
      intro h
      simp [charListLt, h] at h1
    have hba : ¬ b < a := by
      intro h
      simp [charListLt, h] at h2
    have heq : a = b := le_antisymm (le_of_not_lt hba) (le_of_not_lt hab)
    subst heq
    have h1x : charListLt as bs = false := by
      simpa [charListLt, lt_irrefl] using h1
    have h2x : charListLt bs as = false := by
      simpa [charListLt, lt_irrefl] using h2
    rw [charListLt_antisymm as bs h1x h2x]

theorem strLt_irrefl (a : String) : strLt a a = false := charListLt_irrefl a.data

theorem strLt_trans {a b c : String} (h1 : strLt a b = true)
    (h2 : strLt b c = true) : strLt a c = true :=
  charListLt_trans a.data b.data c.data h1 h2

theorem strLt_antisymm {a b : String} (h1 : strLt a b = false)
    (h2 : strLt b a = false) : a = b := by
  have h := charListLt_antisymm a.data b.data h1 h2
  cases a
  cases b
  exact congrArg String.mk h

theorem strLt_asymm {a b : String} (h1 : strLt a b = true) :
    strLt b a = false := by
  by_contra h
  have h2 : strLt b a = true := by
    cases hv : strLt b a
    · exact absurd hv h
    · rfl
  have := strLt_trans h1 h2
  rw [strLt_irrefl] at this
  exact Bool.false_ne_true this

theorem strLe_total (a b : String) : strLe a b = true ∨ strLe b a = true := by
  unfold strLe
  cases hv : strLt b a
  · simp
  · simp [strLt_asymm hv]

theorem strLe_trans {a b c : String} (h1 : strLe a b = true)
    (h2 : strLe b c = true) : strLe a c = true := by
  unfold strLe at *
  simp only [Bool.not_eq_true'] at h1 h2 ⊢
  by_contra h
  have hca : strLt c a = true := by
    cases hv : strLt c a
    · exact absurd hv h
    · rfl
  rcases hv : strLt a b with _ | _
  · rcases hw : strLt b c with _ | _
    · have hab := strLt_antisymm hv h1
      have hbc := strLt_antisymm hw h2
      subst hab
      subst hbc
      rw [strLt_irrefl] at hca
      exact Bool.false_ne_true hca
    · have hab := strLt_antisymm hv h1
      subst hab
      rw [strLt_asymm hca] at hw
      exact Bool.false_ne_true hw
  · have hbc : strLt b c = false := by
      cases hw : strLt b c
      · rfl
      · have := strLt_trans (strLt_trans hv hw) hca
        rw [strLt_irrefl] at this
        exact absurd this Bool.false_ne_true
    have hbc2 := strLt_antisymm hbc h2
    subst hbc2
    rw [strLt_asymm hca] at hv
    exact Bool.false_ne_true hv

theorem lexStrBy_trans (key : β → String) (le2 : β → β → Bool)
    (h2 : ∀ a b c, le2 a b = true → le2 b c = true → le2 a c = true) :
    ∀ a b c, lexStrBy key le2 a b = true → lexStrBy key le2 b c = true →
      lexStrBy key le2 a c = true := by
  intro a b c hab hbc
  simp only [lexStrBy, Bool.or_eq_true, Bool.and_eq_true, decide_eq_true_eq] at hab hbc ⊢
  rcases hab with hab | ⟨hab, hab2⟩
  · rcases hbc with hbc | ⟨hbc, _⟩
    · exact Or.inl (strLt_trans hab hbc)
    · exact Or.inl (hbc ▸ hab)
  · rcases hbc with hbc | ⟨hbc, hbc2⟩
    · exact Or.inl (hab ▸ hbc)
    · exact Or.inr ⟨hab.trans hbc, h2 a b c hab2 hbc2⟩

theorem lexStrBy_total (key : β → String) (le2 : β → β → Bool)
    (h2 : ∀ a b, le2 a b = true ∨ le2 b a = true) :
    ∀ a b, lexStrBy key le2 a b = true ∨ lexStrBy key le2 b a = true := by
  intro a b
  simp only [lexStrBy, Bool.or_eq_true, Bool.and_eq_true, decide_eq_true_eq]
  cases hv : strLt (key a) (key b)
  · cases hw : strLt (key b) (key a)
    · have heq := strLt_antisymm hv hw
      rcases h2 a b with h | h
      · exact Or.inl (Or.inr ⟨heq, h⟩)
      · exact Or.inr (Or.inr ⟨heq.symm, h⟩)
    · exact Or.inr (Or.inl rfl)
  · exact Or.inl (Or.inl rfl)

theorem bySndDesc_trans : ∀ a b c : String × Int,
    bySndDesc a b = true → bySndDesc b c = true → bySndDesc a c = true := by
  intro a b c h1 h2
  simp only [bySndDesc, decide_eq_true_eq] at h1 h2 ⊢
  exact le_trans h2 h1

theorem bySndDesc_total : ∀ a b : String × Int,
    bySndDesc a b = true ∨ bySndDesc b a = true := by
  intro a b
  simp only [bySndDesc, decide_eq_true_eq]
  exact le_total b.2 a.2

theorem byKeywordMetricDesc_trans (m : AggRow → Int) :
    ∀ a b c, byKeywordMetricDesc m a b = true → byKeywordMetricDesc m b c = true →
      byKeywordMetricDesc m a c = true :=
  lexStrBy_trans _ _ (by
    intro a b c h1 h2
    simp only [decide_eq_true_eq] at h1 h2 ⊢
    exact le_trans h2 h1)

theorem byKeywordMetricDesc_total (m : AggRow → Int) :
    ∀ a b, byKeywordMetricDesc m a b = true ∨ byKeywordMetricDesc m b a = true :=
  lexStrBy_total _ _ (by
    intro a b
    simp only [decide_eq_true_eq]
    exact le_total (m b) (m a))

theorem lookup_map_mk (f : String → Cell) :
    ∀ (cols : List String) (c : String), c ∈ cols →
      (cols.map (fun x => (x, f x))).lookup c = some (f c)
  | [], c, h => absurd h (List.not_mem_nil c)
  | x :: xs, c, h => by
    by_cases hc : c = x
    · subst hc
      simp [List.lookup]
    · have hx : c ∈ xs := by
        rcases List.mem_cons.mp h with h2 | h2
        · exact absurd h2 hc
        · exact h2
      have hne : (c == x) = false := beq_eq_false_iff_ne.mpr hc
      simp [List.lookup, hne, lookup_map_mk f xs c hx]

theorem fillRow_get (cols bcols : List String) (r : Row) (c : String) (hc : c ∈ cols) :
    (fillRow cols bcols r).get c =
      if c ∈ bcols then some ((r.get c).getD 0) else r.get c := by
  show ((cols.map (fun x =>
      (x, if x ∈ bcols then some ((r.get x).getD 0) else r.get x))).lookup c).join = _
  rw [lookup_map_mk (fun x => if x ∈ bcols then some ((r.get x).getD 0) else r.get x) cols c hc]
  by_cases hb : c ∈ bcols
  · simp [hb]
  · simp [hb]

theorem brandColsOf_subset (t : Table) : ∀ c ∈ brandColsOf t, c ∈ t.cols := by
  intro c hc
  exact (List.mem_filter.mp hc).1

theorem brandColsOf_filterWindow (s e : Int) (t : Table) :
    brandColsOf (filterWindow s e t) = brandColsOf t := rfl

theorem mkWeek_rows (s e : Int) (t : Table) :
    (mkWeek s e t).rows =
      (t.rows.filter (fun r => decide (s ≤ r.date) && decide (r.date ≤ e))).map
        (fillRow t.cols (brandColsOf t)) := rfl

theorem rankPairs_perm (t : Table) (cs : List String) :
    List.Perm (rankPairs t cs) (cs.map (fun c => (c, colSum t c))) :=
  sortValuesBy_perm _ _

theorem rankPairs_mem (t : Table) (cs : List String) :
    ∀ p ∈ rankPairs t cs, p.1 ∈ cs ∧ p.2 = colSum t p.1 := by
  intro p hp
  have hp2 := (rankPairs_perm t cs).mem_iff.mp hp
  rcases List.mem_map.mp hp2 with ⟨c, hc, hcp⟩
  subst hcp
  exact ⟨hc, rfl⟩

theorem rankPairs_sorted (t : Table) (cs : List String) :
    (rankPairs t cs).Pairwise (fun a b => b.2 ≤ a.2) := by
  refine (pairwise_sortValuesBy bySndDesc bySndDesc_trans bySndDesc_total _).imp ?_
  intro a b h
  simpa [bySndDesc] using h

theorem sum_map_filter_split (p : α → Bool) (f : α → Int) :
    ∀ l : List α,
      ((l.filter p).map f).sum + ((l.filter (fun x => !(p x))).map f).sum = (l.map f).sum
  | [] => rfl
  | x :: xs => by
    have ih := sum_map_filter_split p f xs
    by_cases h : p x = true
    · simp only [List.filter_cons, h, if_pos, Bool.not_true, List.map_cons, List.sum_cons,
        if_neg, Bool.false_eq_true, not_false_iff]
      omega
    · have h2 : p x = false := by
        cases hv : p x
        · rfl
        · exact absurd hv h
      simp only [List.filter_cons, h2, Bool.not_false, List.map_cons, List.sum_cons,
        if_pos, if_neg, Bool.false_eq_true, not_false_iff]
      omega

theorem headPerKeyword_sublist (n : Nat) :
    ∀ (seen : List (String × Nat)) (l : List AggRow),
      List.Sublist (headPerKeyword n seen l) l
  | _, [] => List.Sublist.refl []
  | seen, r :: rs => by
    unfold headPerKeyword
    by_cases h : (seen.lookup r.keyword).getD 0 < n
    · rw [if_pos h]
      exact (headPerKeyword_sublist n _ rs).cons₂ r
    · rw [if_neg h]
      exact (headPerKeyword_sublist n seen rs).cons r

theorem headPerKeyword_count (n : Nat) (b : String) :
    ∀ (seen : List (String × Nat)) (l : List AggRow),
      ((headPerKeyword n seen l).filter (fun r => r.keyword == b)).length
        ≤ n - (seen.lookup b).getD 0
  | seen, [] => by simp [headPerKeyword]
  | seen, r :: rs => by
    unfold headPerKeyword
    by_cases h : (seen.lookup r.keyword).getD 0 < n
    · rw [if_pos h]
      by_cases hrb : r.keyword = b
      · subst hrb
        have ih := headPerKeyword_count n r.keyword
          ((r.keyword, (seen.lookup r.keyword).getD 0 + 1) :: seen) rs
        rw [List.filter_cons]
        simp only [beq_self_eq_true, if_pos, List.length_cons]
        have hlk : (((r.keyword, (seen.lookup r.keyword).getD 0 + 1) :: seen).lookup
            r.keyword).getD 0 = (seen.lookup r.keyword).getD 0 + 1 := by
          simp [List.lookup]
        rw [hlk] at ih
        omega
      · have hne : (r.keyword == b) = false := beq_eq_false_iff_ne.mpr hrb
        have ih := headPerKeyword_count n b
          ((r.keyword, (seen.lookup r.keyword).getD 0 + 1) :: seen) rs
        rw [List.filter_cons]
        simp only [hne, Bool.false_eq_true, if_neg, not_false_iff]
        have hbk : (b == r.keyword) = false := beq_eq_false_iff_ne.mpr (Ne.symm hrb)
        have hlk : (((r.keyword, (seen.lookup r.keyword).getD 0 + 1) :: seen).lookup
            b).getD 0 = (seen.lookup b).getD 0 := by
          simp [List.lookup, hbk]
        rw [hlk] at ih
        exact ih
    · rw [if_neg h]
      exact headPerKeyword_count n b seen rs

/-- Claim C5: every row of the filtered window table has its date inside the
inclusive window (rows outside are excluded, boundary dates included), and
every brand-column cell of the output is non-null, the missing brand counts
having been replaced with 0. -/
theorem claim_C5 (t : Table) (s e : Int) :
    (∀ r ∈ (mkWeek s e t).rows,
        (s ≤ r.date ∧ r.date ≤ e) ∧ ∀ c ∈ brandColsOf t, (r.get c).isSome = true)
    ∧ (∀ r0 ∈ t.rows, s ≤ r0.date → r0.date ≤ e →
        ∃ r ∈ (mkWeek s e t).rows, r.date = r0.date ∧
          ∀ c ∈ brandColsOf t, r.get c = some ((r0.get c).getD 0)) := by
  constructor
  · intro r hr
    rw [mkWeek_rows] at hr
    rcases List.mem_map.mp hr with ⟨r0, hr0, rfl⟩
    have hdate : s ≤ r0.date ∧ r0.date ≤ e := by
      have h2 := (List.mem_filter.mp hr0).2
      simp only [Bool.and_eq_true, decide_eq_true_eq] at h2
      exact h2
    refine ⟨hdate, ?_⟩
    intro c hc
    rw [fillRow_get t.cols (brandColsOf t) r0 c (brandColsOf_subset t c hc), if_pos hc]
    rfl
  · intro r0 hr0 hs he
    refine ⟨fillRow t.cols (brandColsOf t) r0, ?_, rfl, ?_⟩
    · rw [mkWeek_rows]
      exact List.mem_map_of_mem _ (List.mem_filter.mpr ⟨hr0, by simp [hs, he]⟩)
    · intro c hc
      rw [fillRow_get t.cols (brandColsOf t) r0 c (brandColsOf_subset t c hc), if_pos hc]

/-- A two-row example table: a date-5 row with a missing count for brand A and
a date-20 row outside the example windows. -/
def wTbl : Table :=
  ⟨["A", "total_mentions"],
    [⟨5, [("A", none)]⟩, ⟨20, [("A", some 7), ("total_mentions", some 7)]⟩]⟩

theorem claim_C5_witness :
    ((Row.mk 5 [("A", some 0), ("total_mentions", none)]).get "A").isSome = true :=
  ((claim_C5 wTbl 0 10).1 (Row.mk 5 [("A", some 0), ("total_mentions", none)])
    (by decide)).2 "A" (by decide)

/-- The table of the C6 counterexample: a metadata cell (total_mentions) is
missing on the in-window row. -/
def tblC6 : Table := ⟨["total_mentions", "A"], [⟨0, [("A", some 3)]⟩]⟩

/-- Claim C6 is false on the code: after window filtering the missing
total_mentions cell of the surviving row is still missing, because line 40
zero-fills only the brand columns. -/
theorem claim_C6_counterexample :
    ¬ (∀ r ∈ (mkWeek 0 0 tblC6).rows, ∀ c ∈ tblC6.cols, (r.get c).isSome = true) := by
  decide

/-- Claim C6 (amended): after window filtering, the missing cells of the
brand columns are filled with zero, while the metadata columns
total_mentions and num_brands_mentioned pass through unchanged and may
remain missing. -/
theorem claim_C6_amended (t : Table) (s e : Int) :
    ∀ r ∈ (mkWeek s e t).rows, ∃ r0 ∈ t.rows,
      s ≤ r0.date ∧ r0.date ≤ e ∧ r.date = r0.date ∧
      (∀ c ∈ brandColsOf t, r.get c = some ((r0.get c).getD 0)) ∧
      (∀ c ∈ t.cols, c ∉ brandColsOf t → r.get c = r0.get c) := by
  intro r hr
  rw [mkWeek_rows] at hr
  rcases List.mem_map.mp hr with ⟨r0, hr0, rfl⟩
  rcases List.mem_filter.mp hr0 with ⟨hmem, hcond⟩
  simp only [Bool.and_eq_true, decide_eq_true_eq] at hcond
  refine ⟨r0, hmem, hcond.1, hcond.2, rfl, ?_, ?_⟩
  · intro c hc
    rw [fillRow_get t.cols (brandColsOf t) r0 c (brandColsOf_subset t c hc), if_pos hc]
  · intro c hc hnb
    rw [fillRow_get t.cols (brandColsOf t) r0 c hc, if_neg hnb]

theorem claim_C6_amended_witness :
    (Row.mk 0 [("total_mentions", none), ("A", some 3)]).get "total_mentions" = none := by
  rcases claim_C6_amended tblC6 0 0 (Row.mk 0 [("total_mentions", none), ("A", some 3)])
      (by decide) with ⟨r0, hmem, _, _, _, _, hmeta⟩
  have hr0 : r0 = Row.mk 0 [("A", some 3)] := by
    simpa [tblC6] using hmem
  subst hr0
  exact hmeta "total_mentions" (by decide) (by decide)

/-- Claim C4: a secondary row is retained exactly when its week bucket
overlaps the display window (week_start <= display_end and week_end >=
display_start) and its brand is selected, week_end standing for
week_start + 6 days when that column is absent. -/
theorem claim_C4 (hasWE : Bool) (s e : Int) (sel : List String)
    (rows : List ChwRow) (r : ChwRow) :
    r ∈ chwFiltered hasWE s e sel rows ↔
      (r ∈ rows ∧ (r.weekStart ≤ e ∧ s ≤ (if hasWE then r.weekEnd else r.weekStart + 6))
        ∧ r.keyword ∈ sel) := by
  simp [chwFiltered, chwMask, List.mem_filter, effWeekEnd, ge_iff_le]

/-- Claim C9: neither the window filter nor the zero-fill mutates the loaded
source table: after both steps the df component of the state is the original
table cell for cell, the whole-dataset ranking over df is unchanged, and the
whole-dataset column totals still count the out-of-window rows (they split
as in-window plus out-of-window sums). -/
theorem claim_C9 (t : Table) (s e : Int) :
    (stepFill (stepFilter s e (loadState t))).df = t
    ∧ (stepFill (stepFilter s e (loadState t))).week = some (mkWeek s e t)
    ∧ rankPairs (stepFill (stepFilter s e (loadState t))).df
        (brandColsOf (stepFill (stepFilter s e (loadState t))).df)
        = rankPairs t (brandColsOf t)
    ∧ (∀ c : String,
        colSum t c = colSum (filterWindow s e t) c + colSum (filterOutsideWindow s e t) c) := by
  refine ⟨rfl, rfl, rfl, ?_⟩
  intro c
  exact (sum_map_filter_split
    (fun r => decide (s ≤ r.date) && decide (r.date ≤ e))
    (fun r => (r.get c).getD 0) t.rows).symm

theorem rankPairs_map_fst_perm (t : Table) (cs : List String) :
    List.Perm ((rankPairs t cs).map Prod.fst) cs := by
  have h := (rankPairs_perm t cs).map Prod.fst
  rw [List.map_map] at h
  have hid : (Prod.fst ∘ fun c => (c, colSum t c)) = fun c : String => c := rfl
  rw [hid, List.map_id'] at h
  exact h

theorem rank_take_length (t : Table) (cs : List String) (n : Nat) :
    (((rankPairs t cs).take n).map Prod.fst).length = min n cs.length := by
  rw [List.length_map, List.length_take, (rankPairs_perm t cs).length_eq, List.length_map]

theorem rank_take_mem (t : Table) (cs : List String) (n : Nat) :
    ∀ b ∈ ((rankPairs t cs).take n).map Prod.fst, b ∈ cs := by
  intro b hb
  rcases List.mem_map.mp hb with ⟨p, hp, rfl⟩
  exact (rankPairs_mem t cs p ((List.take_sublist n _).subset hp)).1

theorem rank_take_sorted (t : Table) (cs : List String) (n : Nat) :
    ((((rankPairs t cs).take n).map Prod.fst).map (colSum t)).Pairwise
      (fun x y => y ≤ x) := by
  rw [List.map_map, List.pairwise_map]
  have h2 : ((rankPairs t cs).take n).Pairwise (fun a b => b.2 ≤ a.2) :=
    List.Pairwise.sublist (List.take_sublist n _) (rankPairs_sorted t cs)
  refine h2.imp_of_mem ?_
  intro a b ha hb hr
  have ha2 := (rankPairs_mem t cs a ((List.take_sublist n _).subset ha)).2
  have hb2 := (rankPairs_mem t cs b ((List.take_sublist n _).subset hb)).2
  simpa [Function.comp, ← ha2, ← hb2] using hr

theorem rank_take_dominates (t : Table) (cs : List String) (n : Nat) :
    ∀ b ∈ ((rankPairs t cs).take n).map Prod.fst,
      ∀ c ∈ cs, c ∉ ((rankPairs t cs).take n).map Prod.fst →
        colSum t c ≤ colSum t b := by
  intro b hb c hc hcn
  rcases List.mem_map.mp hb with ⟨p, hp, rfl⟩
  have hcp : (c, colSum t c) ∈ rankPairs t cs := by
    rw [(rankPairs_perm t cs).mem_iff]
    exact List.mem_map_of_mem _ hc
  have hsplit : (c, colSum t c) ∈ ((rankPairs t cs).take n ++ (rankPairs t cs).drop n) := by
    rw [List.take_append_drop]
    exact hcp
  rcases List.mem_append.mp hsplit with h | h
  · exact absurd (List.mem_map_of_mem Prod.fst h) hcn
  · have hpw : ((rankPairs t cs).take n ++ (rankPairs t cs).drop n).Pairwise
        (fun a b => b.2 ≤ a.2) := by
      rw [List.take_append_drop]
      exact rankPairs_sorted t cs
    have hle := (List.pairwise_append.mp hpw).2.2 p hp (c, colSum t c) h
    have hp2 := (rankPairs_mem t cs p ((List.take_sublist n _).subset hp)).2
    rw [← hp2]
    exact hle

/-- The full post-condition that the single-key Series sort_values calls of
lines 45, 156 and 176 (ascending=False, default sort kind) guarantee for
their result: some reordering of the input (label, total) pairs whose
totals are non-increasing. The default sort kind promises nothing about the
relative order of tied totals. -/
def IsSortValuesDesc (input out : List (String × Int)) : Prop :=
  List.Perm out input ∧ out.Pairwise (fun a b => b.2 ≤ a.2)

theorem sortedDesc_mem (t : Table) (cs : List String) (out : List (String × Int))
    (hout : IsSortValuesDesc (cs.map (fun c => (c, colSum t c))) out) :
    ∀ p ∈ out, p.1 ∈ cs ∧ p.2 = colSum t p.1 := by
  intro p hp
  rcases List.mem_map.mp (hout.1.mem_iff.mp hp) with ⟨c, hc, hcp⟩
  subst hcp
  exact ⟨hc, rfl⟩

theorem sortedDesc_take_length (t : Table) (cs : List String) (n : Nat)
    (out : List (String × Int))
    (hout : IsSortValuesDesc (cs.map (fun c => (c, colSum t c))) out) :
    ((out.take n).map Prod.fst).length = min n cs.length := by
  rw [List.length_map, List.length_take, hout.1.length_eq, List.length_map]

theorem sortedDesc_take_mem (t : Table) (cs : List String) (n : Nat)
    (out : List (String × Int))
    (hout : IsSortValuesDesc (cs.map (fun c => (c, colSum t c))) out) :
    ∀ b ∈ (out.take n).map Prod.fst, b ∈ cs := by
  intro b hb
  rcases List.mem_map.mp hb with ⟨p, hp, rfl⟩
  exact (sortedDesc_mem t cs out hout p ((List.take_sublist n _).subset hp)).1

theorem sortedDesc_take_sorted (t : Table) (cs : List String) (n : Nat)
    (out : List (String × Int))
    (hout : IsSortValuesDesc (cs.map (fun c => (c, colSum t c))) out) :
    (((out.take n).map Prod.fst).map (colSum t)).Pairwise (fun x y => y ≤ x) := by
  rw [List.map_map, List.pairwise_map]
  have h2 : (out.take n).Pairwise (fun a b => b.2 ≤ a.2) :=
    List.Pairwise.sublist (List.take_sublist n _) hout.2
  refine h2.imp_of_mem ?_
  intro a b ha hb hr
  have ha2 := (sortedDesc_mem t cs out hout a ((List.take_sublist n _).subset ha)).2
  have hb2 := (sortedDesc_mem t cs out hout b ((List.take_sublist n _).subset hb)).2
  simpa [Function.comp, ← ha2, ← hb2] using hr

theorem sortedDesc_take_dominates (t : Table) (cs : List String) (n : Nat)
    (out : List (String × Int))
    (hout : IsSortValuesDesc (cs.map (fun c => (c, colSum t c))) out) :
    ∀ b ∈ (out.take n).map Prod.fst, ∀ c ∈ cs, c ∉ (out.take n).map Prod.fst →
      colSum t c ≤ colSum t b := by
  intro b hb c hc hcn
  rcases List.mem_map.mp hb with ⟨p, hp, rfl⟩
  have hcp : (c, colSum t c) ∈ out := by
    rw [hout.1.mem_iff]
    exact List.mem_map_of_mem _ hc
  have hsplit : (c, colSum t c) ∈ (out.take n ++ out.drop n) := by
    rw [List.take_append_drop]
    exact hcp
  rcases List.mem_append.mp hsplit with h | h
  · exact absurd (List.mem_map_of_mem Prod.fst h) hcn
  · have hpw : (out.take n ++ out.drop n).Pairwise (fun a b => b.2 ≤ a.2) := by
      rw [List.take_append_drop]
      exact hout.2
    have hle := (List.pairwise_append.mp hpw).2.2 p hp (c, colSum t c) h
    have hp2 := (sortedDesc_mem t cs out hout p ((List.take_sublist n _).subset hp)).2
    rw [← hp2]
    exact hle

/-- Example table for claim C2: brands A and C tie on a window total of 1
while B leads with 5; the original column order is A, B, C. -/
def tblC2 : Table :=
  ⟨["A", "B", "C"], [⟨0, [("A", some 1), ("B", some 5), ("C", some 1)]⟩]⟩

/-- Claim C2 as stated is false on the code: the relative order of tied
sums is not guaranteed. On tblC2 the brand totals are [(A,1), (B,5), (C,1)]
and the list [(B,5), (C,1), (A,1)] is a permitted result of the sort at
line 45 — the default sort kind promises only a descending reordering — yet
the default selection it yields, [B, C, A], does not keep the tied brands A
and C in their original column order (A before C). -/
theorem claim_C2_counterexample :
    IsSortValuesDesc ((brandColsOf tblC2).map (fun c => (c, colSum tblC2 c)))
      [("B", 5), ("C", 1), ("A", 1)]
    ∧ colSum tblC2 "A" = colSum tblC2 "C"
    ∧ List.Sublist ["A", "C"] (brandColsOf tblC2)
    ∧ ((([("B", 5), ("C", 1), ("A", 1)] : List (String × Int)).take 5).map Prod.fst)
        = ["B", "C", "A"]
    ∧ ¬ List.Sublist ["A", "C"] ["B", "C", "A"] :=
  ⟨⟨by decide, by decide⟩, by decide, by decide, by decide, by decide⟩

/-- Claim C2 (amended): for every result the line-45 sort is permitted to
return — any reordering of the per-brand window totals with non-increasing
sums — its first five entries are exactly the 5 brand columns with the
highest window sums (or all brand columns when fewer than 5 exist), in
descending order of sum; the relative order of brands with equal sums is
unspecified. The executable model of the default selection (defaultBrands
via rankPairs) is one such permitted result. -/
theorem claim_C2_amended (t : Table) (out : List (String × Int))
    (hout : IsSortValuesDesc ((brandColsOf t).map (fun c => (c, colSum t c))) out) :
    ((out.take 5).map Prod.fst).length = min 5 (brandColsOf t).length
    ∧ (∀ b ∈ (out.take 5).map Prod.fst, b ∈ brandColsOf t)
    ∧ (((out.take 5).map Prod.fst).map (colSum t)).Pairwise (fun x y => y ≤ x)
    ∧ (∀ b ∈ (out.take 5).map Prod.fst, ∀ c ∈ brandColsOf t,
        c ∉ (out.take 5).map Prod.fst → colSum t c ≤ colSum t b)
    ∧ IsSortValuesDesc ((brandColsOf t).map (fun c => (c, colSum t c)))
        (rankPairs t (brandColsOf t))
    ∧ defaultBrands t = ((rankPairs t (brandColsOf t)).take 5).map Prod.fst :=
  ⟨sortedDesc_take_length t (brandColsOf t) 5 out hout,
    sortedDesc_take_mem t (brandColsOf t) 5 out hout,
    sortedDesc_take_sorted t (brandColsOf t) 5 out hout,
    sortedDesc_take_dominates t (brandColsOf t) 5 out hout,
    ⟨rankPairs_perm t (brandColsOf t), rankPairs_sorted t (brandColsOf t)⟩,
    rfl⟩

theorem claim_C2_amended_witness :
    ((([("B", 5), ("C", 1), ("A", 1)] : List (String × Int)).take 5).map
      Prod.fst).length = min 5 (brandColsOf tblC2).length :=
  (claim_C2_amended tblC2 [("B", 5), ("C", 1), ("A", 1)] ⟨by decide, by decide⟩).1

/-- Claim C3: in Mode B, every aggregated (brand, channel) row carries the
maximum of that pair's subscriber values across the surviving rows (not
their sum) while views, likes and comments aggregate by sum over the same
rows, its engagement equals views + likes + comments, and every surviving
pair has an aggregated row; missing numeric values were coerced to 0. -/
theorem claim_C3 (hasWE : Bool) (s e : Int) (sel : List String) (rows : List ChwRow) :
    (∀ g ∈ chwAgg (chwSub hasWE s e sel rows),
        g.subscribers = listMax ((groupOf (chwSub hasWE s e sel rows) g.keyword g.channel).map
          (fun r => r.subscribers))
        ∧ g.views = ((groupOf (chwSub hasWE s e sel rows) g.keyword g.channel).map
          (fun r => r.views)).sum
        ∧ g.likeCount = ((groupOf (chwSub hasWE s e sel rows) g.keyword g.channel).map
          (fun r => r.likeCount)).sum
        ∧ g.commentCount = ((groupOf (chwSub hasWE s e sel rows) g.keyword g.channel).map
          (fun r => r.commentCount)).sum
        ∧ g.engagement = g.views + g.likeCount + g.commentCount)
    ∧ (∀ r ∈ chwSub hasWE s e sel rows, ∃ g ∈ chwAgg (chwSub hasWE s e sel rows),
        g.keyword = r.keyword ∧ g.channel = r.channel) := by
  constructor
  · intro g hg
    rcases List.mem_map.mp hg with ⟨kc, _, rfl⟩
    exact ⟨rfl, rfl, rfl, rfl, rfl⟩
  · intro r hr
    refine ⟨aggFor (chwSub hasWE s e sel rows) r.keyword r.channel, ?_, rfl, rfl⟩
    rw [chwAgg]
    refine List.mem_map.mpr ⟨(r.keyword, r.channel), ?_, rfl⟩
    rw [groupKeys, mem_sortValuesBy, List.mem_dedup]
    exact List.mem_map_of_mem _ hr

/-- The Mode B example rows of the C3 witness: the same (brand, channel)
pair observed in two overlapping weeks with subscriber counts 100 and 50,
and some missing view and comment counts. -/
def rowsC3 : List ChwRow :=
  [⟨0, 3, "brandX", "chanA", some 100, some 10, some 1, none⟩,
   ⟨4, 9, "brandX", "chanA", some 50, none, some 2, none⟩]

theorem claim_C3_witness :
    (100 : Int) = listMax ((groupOf (chwSub true 0 10 ["brandX"] rowsC3)
      "brandX" "chanA").map (fun r => r.subscribers)) :=
  ((claim_C3 true 0 10 ["brandX"] rowsC3).1
    (AggRow.mk "brandX" "chanA" 100 10 3 0 13) (by decide)).1

theorem topPerKeyword_le3 (m : AggRow → Int) (agg : List AggRow) (b : String) :
    ((topPerKeyword m agg).filter (fun r => r.keyword == b)).length ≤ 3 := by
  have h := headPerKeyword_count 3 b [] (sortValuesBy (byKeywordMetricDesc m) agg)
  simpa using h

theorem topPerKeyword_desc (m : AggRow → Int) (agg : List AggRow) (b : String) :
    (((topPerKeyword m agg).filter (fun r => r.keyword == b)).map m).Pairwise
      (fun x y => y ≤ x) := by
  have hs : (sortValuesBy (byKeywordMetricDesc m) agg).Pairwise
      (fun a c => byKeywordMetricDesc m a c = true) :=
    pairwise_sortValuesBy _ (byKeywordMetricDesc_trans m) (byKeywordMetricDesc_total m) agg
  have hsub : List.Sublist ((topPerKeyword m agg).filter (fun r => r.keyword == b))
      (sortValuesBy (byKeywordMetricDesc m) agg) :=
    (List.filter_sublist _).trans (headPerKeyword_sublist 3 [] _)
  have hpw := List.Pairwise.sublist hsub hs
  rw [List.pairwise_map]
  refine hpw.imp_of_mem ?_
  intro x y hx hy hr
  have hxb : x.keyword = b := by
    simpa using (List.mem_filter.mp hx).2
  have hyb : y.keyword = b := by
    simpa using (List.mem_filter.mp hy).2
  simp only [byKeywordMetricDesc, lexStrBy, hxb, hyb, Bool.or_eq_true, Bool.and_eq_true,
    decide_eq_true_eq] at hr
  rcases hr with hr | ⟨_, hr⟩
  · rw [strLt_irrefl] at hr
    exact absurd hr Bool.false_ne_true
  · exact hr

/-- Claim C7: both per-brand top-3 rankings (reach and engagement) return at
most 3 rows per brand, and within each brand group the ranking metric is
non-increasing from the first to the last returned row. -/
theorem claim_C7 (agg : List AggRow) (b : String) :
    ((topReach agg).filter (fun r => r.keyword == b)).length ≤ 3
    ∧ (((topReach agg).filter (fun r => r.keyword == b)).map
        (fun r => r.subscribers)).Pairwise (fun x y => y ≤ x)
    ∧ ((topEng agg).filter (fun r => r.keyword == b)).length ≤ 3
    ∧ (((topEng agg).filter (fun r => r.keyword == b)).map
        (fun r => r.engagement)).Pairwise (fun x y => y ≤ x) :=
  ⟨topPerKeyword_le3 _ agg b, topPerKeyword_desc _ agg b,
    topPerKeyword_le3 _ agg b, topPerKeyword_desc _ agg b⟩

theorem melt_mem (t : Table) (cs : List String) (x : LongRow) :
    x ∈ melt t cs ↔ ∃ b ∈ cs, ∃ r ∈ t.rows, x = (r.date, b, r.get b) := by
  simp only [melt, List.mem_flatMap, List.mem_map]
  constructor
  · rintro ⟨b, hb, r, hr, rfl⟩
    exact ⟨b, hb, r, hr, rfl⟩
  · rintro ⟨b, hb, r, hr, rfl⟩
    exact ⟨b, hb, r, hr, rfl⟩

theorem colSum_mkWeek_zero (df : Table) (s e : Int) (b : String)
    (hb : b ∈ brandColsOf df)
    (hz : ∀ r ∈ df.rows, s ≤ r.date → r.date ≤ e → (r.get b).getD 0 = 0) :
    colSum (mkWeek s e df) b = 0 := by
  apply List.sum_eq_zero
  intro x hx
  rcases List.mem_map.mp hx with ⟨r, hr, rfl⟩
  rw [mkWeek_rows] at hr
  rcases List.mem_map.mp hr with ⟨r0, hr0, rfl⟩
  rcases List.mem_filter.mp hr0 with ⟨hmem, hcond⟩
  simp only [Bool.and_eq_true, decide_eq_true_eq] at hcond
  rw [fillRow_get df.cols (brandColsOf df) r0 b (brandColsOf_subset df b hb), if_pos hb]
  simpa using hz r0 hmem hcond.1 hcond.2

/-- Claim C1: the Top-10-overall set is selected by total mentions over the
entire unfiltered dataset (nulls as 0) and does not mention the display
window, while the chart and summary-table values for those 10 brands come
only from the filtered window: every charted point has an in-window date and
carries the zero-filled in-window value, the summary rows are exactly the
Top-10 brands with their window totals sorted descending, a Top-10 brand
whose in-window values are all zero or missing still appears with a window
total of 0, and the Top-10 page section is built from exactly these parts. -/
theorem claim_C1 (df : Table) (s e : Int) :
    (top10Brands df).length = min 10 (brandColsOf df).length
    ∧ (∀ b ∈ top10Brands df, b ∈ brandColsOf df)
    ∧ (∀ b ∈ top10Brands df, ∀ c ∈ brandColsOf df, c ∉ top10Brands df →
        colSum df c ≤ colSum df b)
    ∧ (∀ x ∈ melt (mkWeek s e df) (top10Brands df),
        (s ≤ x.1 ∧ x.1 ≤ e)
        ∧ ∃ r0 ∈ df.rows, r0.date = x.1 ∧ x.2.2 = some ((r0.get x.2.1).getD 0))
    ∧ List.Perm ((rankPairs (mkWeek s e df) (top10Brands df)).map Prod.fst)
        (top10Brands df)
    ∧ (∀ p ∈ rankPairs (mkWeek s e df) (top10Brands df),
        p.2 = colSum (mkWeek s e df) p.1)
    ∧ ((rankPairs (mkWeek s e df) (top10Brands df)).map Prod.snd).Pairwise
        (fun x y => y ≤ x)
    ∧ (∀ b ∈ top10Brands df,
        (∀ r ∈ df.rows, s ≤ r.date → r.date ≤ e → (r.get b).getD 0 = 0) →
        (b, (0 : Int)) ∈ rankPairs (mkWeek s e df) (top10Brands df))
    ∧ (∀ (sel : List String) (sec : SecInput),
        (render df s e sel sec true).top10 =
          if (top10Brands df).isEmpty then Top10View.noBrands
          else Top10View.shown (melt (mkWeek s e df) (top10Brands df))
            (rankPairs (mkWeek s e df) (top10Brands df))) := by
  refine ⟨rank_take_length df (brandColsOf df) 10,
    rank_take_mem df (brandColsOf df) 10,
    rank_take_dominates df (brandColsOf df) 10, ?_, ?_, ?_, ?_, ?_, ?_⟩
  · intro x hx
    rcases (melt_mem _ _ x).mp hx with ⟨b, hb, r, hr, rfl⟩
    rw [mkWeek_rows] at hr
    rcases List.mem_map.mp hr with ⟨r0, hr0, rfl⟩
    rcases List.mem_filter.mp hr0 with ⟨hmem, hcond⟩
    simp only [Bool.and_eq_true, decide_eq_true_eq] at hcond
    have hbbc : b ∈ brandColsOf df := rank_take_mem df (brandColsOf df) 10 b hb
    refine ⟨hcond, r0, hmem, rfl, ?_⟩
    show (fillRow df.cols (brandColsOf df) r0).get b = _
    rw [fillRow_get df.cols (brandColsOf df) r0 b (brandColsOf_subset df b hbbc),
      if_pos hbbc]
  · exact rankPairs_map_fst_perm (mkWeek s e df) (top10Brands df)
  · intro p hp
    exact (rankPairs_mem (mkWeek s e df) (top10Brands df) p hp).2
  · rw [List.pairwise_map]
    exact rankPairs_sorted (mkWeek s e df) (top10Brands df)
  · intro b hb hz
    have hbbc : b ∈ brandColsOf df := rank_take_mem df (brandColsOf df) 10 b hb
    have h0 := colSum_mkWeek_zero df s e b hbbc hz
    have hmem : (b, colSum (mkWeek s e df) b)
        ∈ rankPairs (mkWeek s e df) (top10Brands df) := by
      rw [(rankPairs_perm (mkWeek s e df) (top10Brands df)).mem_iff]
      exact List.mem_map_of_mem _ hb
    rw [h0] at hmem
    exact hmem
  · intro sel sec
    rfl

/-- Example table for the C1 witness: brand A has 100 mentions on date 0,
outside the display window [5, 5], and no value on date 5; brand B has
mentions on both dates. -/
def dfC1 : Table :=
  ⟨["A", "B"],
    [⟨0, [("A", some 100), ("B", some 1)]⟩, ⟨5, [("B", some 2)]⟩]⟩

theorem claim_C1_witness :
    ("A", (0 : Int)) ∈ rankPairs (mkWeek 5 5 dfC1) (top10Brands dfC1) :=
  (claim_C1 dfC1 5 5).2.2.2.2.2.2.2.1 "A" (by decide) (by decide)

/-- Claim C8: whatever the state of the weekly channel summary source
(absent file, unreadable or malformed content, missing required columns,
empty after filtering), the primary outputs of the render cycle — the week
table, the chart data, the tidy table and the Top-10 section — are
unchanged, and each failing state yields only an informational or warning
message; the render function is total, so no secondary state aborts it. -/
theorem claim_C8 (df : Table) (s e : Int) (sel : List String) (sh : Bool)
    (sec sec2 : SecInput) :
    ((render df s e sel sec sh).week = (render df s e sel sec2 sh).week
      ∧ (render df s e sel sec sh).chart = (render df s e sel sec2 sh).chart
      ∧ (render df s e sel sec sh).tidy = (render df s e sel sec2 sh).tidy
      ∧ (render df s e sel sec sh).top10 = (render df s e sel sec2 sh).top10)
    ∧ (sel ≠ [] →
        (render df s e sel SecInput.absent sh).secondary = SecOutcome.tipNoFile
        ∧ (render df s e sel SecInput.unreadable sh).secondary = SecOutcome.warnLoadFailed)
    ∧ (∀ (cols : List String) (rows : List ChwRow), sel ≠ [] →
        (¬ needCols.all (fun c => decide (c ∈ cols)) = true →
          (render df s e sel (SecInput.ok cols rows) sh).secondary
            = SecOutcome.infoMissingCols)
        ∧ (needCols.all (fun c => decide (c ∈ cols)) = true →
            chwSub (decide ("week_end" ∈ cols)) s e sel rows = [] →
            (render df s e sel (SecInput.ok cols rows) sh).secondary
              = SecOutcome.infoEmpty)) := by
  have hselOf : sel ≠ [] → sel.isEmpty = false := by
    intro h
    cases sel with
    | nil => exact absurd rfl h
    | cons a l => rfl
  refine ⟨⟨rfl, rfl, rfl, rfl⟩, ?_, ?_⟩
  · intro hsel
    constructor
    · show renderSecondary s e sel SecInput.absent = SecOutcome.tipNoFile
      simp [renderSecondary, hselOf hsel]
    · show renderSecondary s e sel SecInput.unreadable = SecOutcome.warnLoadFailed
      simp [renderSecondary, hselOf hsel]
  · intro cols rows hsel
    constructor
    · intro hcols
      show renderSecondary s e sel (SecInput.ok cols rows) = SecOutcome.infoMissingCols
      simp [renderSecondary, hselOf hsel, hcols]
    · intro hcols hsub
      show renderSecondary s e sel (SecInput.ok cols rows) = SecOutcome.infoEmpty
      simp [renderSecondary, hselOf hsel, hcols, hsub]

theorem claim_C8_witness :
    (render wTbl 0 10 ["A"] (SecInput.ok [] []) false).secondary
      = SecOutcome.infoMissingCols :=
  ((claim_C8 wTbl 0 10 ["A"] false SecInput.absent SecInput.absent).2.2 [] []
    (by decide)).1 (by decide)

/-- Claim C10: the whole render cycle, including every derived table (the
filtered week table, the melted long table, the sorted tidy table, the Mode
B aggregated table with its two top-3 rankings, the Top-10 set and its
window totals), is a deterministic function of the input tables, the
window, the selection, the secondary source state and the toggle: equal
inputs give equal outputs, with no hidden state. -/
theorem claim_C10 (df1 df2 : Table) (s1 s2 e1 e2 : Int) (sel1 sel2 : List String)
    (sec1 sec2 : SecInput) (b1 b2 hw1 hw2 : Bool) (rows1 rows2 : List ChwRow)
    (hdf : df1 = df2) (hs : s1 = s2) (he : e1 = e2) (hsel : sel1 = sel2)
    (hsec : sec1 = sec2) (hb : b1 = b2) (hhw : hw1 = hw2) (hrows : rows1 = rows2) :
    render df1 s1 e1 sel1 sec1 b1 = render df2 s2 e2 sel2 sec2 b2
    ∧ mkWeek s1 e1 df1 = mkWeek s2 e2 df2
    ∧ melt (mkWeek s1 e1 df1) sel1 = melt (mkWeek s2 e2 df2) sel2
    ∧ tidySorted (melt (mkWeek s1 e1 df1) sel1)
        = tidySorted (melt (mkWeek s2 e2 df2) sel2)
    ∧ chwAgg (chwSub hw1 s1 e1 sel1 rows1) = chwAgg (chwSub hw2 s2 e2 sel2 rows2)
    ∧ topReach (chwAgg (chwSub hw1 s1 e1 sel1 rows1))
        = topReach (chwAgg (chwSub hw2 s2 e2 sel2 rows2))
    ∧ topEng (chwAgg (chwSub hw1 s1 e1 sel1 rows1))
        = topEng (chwAgg (chwSub hw2 s2 e2 sel2 rows2))
    ∧ top10Brands df1 = top10Brands df2
    ∧ rankPairs (mkWeek s1 e1 df1) (top10Brands df1)
        = rankPairs (mkWeek s2 e2 df2) (top10Brands df2) := by
  subst hdf hs he hsel hsec hb hhw hrows
  exact ⟨rfl, rfl, rfl, rfl, rfl, rfl, rfl, rfl, rfl⟩

theorem claim_C10_witness :
    render wTbl 0 10 ["A"] SecInput.absent false
      = render wTbl 0 10 ["A"] SecInput.absent false :=
  (claim_C10 wTbl wTbl 0 0 10 10 ["A"] ["A"] SecInput.absent SecInput.absent
    false false true true [] [] rfl rfl rfl rfl rfl rfl rfl rfl).1
